import Mathlib

/-!
Verification development for the DeepSeek-OCR frontend (src App component).

Strings are modelled as `List Char`.  `splitSub` models JavaScript
`String.prototype.split` with a non-empty string separator (leftmost,
non-overlapping occurrences); `jsTrim` models `String.prototype.trim` on the
whitespace characters relevant here; `matchDetHere`/`findDet` model the
regular-expression search
`/<\|det\|>\[\[(\d+),\s*(\d+),\s*(\d+),\s*(\d+)\]\]<\|\/det\|>/`,
whose leftmost-match semantics is deterministic because `\d`, `\s` and the
literal characters that follow each greedy piece are disjoint.
-/

set_option maxHeartbeats 1000000

abbrev Str := List Char

def str (s : String) : Str := s.data

/-- The whitespace characters recognised by the JavaScript `\s` class and
`trim` that can occur in this application's data (ASCII whitespace plus
NBSP).  The remaining Unicode space separators are irrelevant here. -/
def jsSpace (c : Char) : Bool :=
  c == ' ' || c == '\t' || c == '\n' || c == '\r' || c == '\x0b' || c == '\x0c' || c == ' '

/-- JavaScript `String.prototype.trim`. -/
def jsTrim (s : Str) : Str :=
  ((s.dropWhile jsSpace).reverse.dropWhile jsSpace).reverse

/-- Value of a string of decimal digits, as computed by `parseInt` on a
`\d+` capture (the app's coordinates are small, so `parseInt`'s float
precision limit is not modelled). -/
def digitsVal (s : Str) : Nat :=
  s.foldl (fun a c => 10 * a + (c.toNat - '0'.toNat)) 0

/-- Fuel-driven worker for `splitSub`.  The fuel only serves to make the
recursion structural; `splitSub` always supplies enough fuel. -/
def splitGoF (sep : Str) : Nat → Str → Str → List Str
  | 0, s, acc => [acc.reverse ++ s]
  | _ + 1, [], acc => [acc.reverse]
  | fuel + 1, c :: rest, acc =>
    if sep.isPrefixOf (c :: rest) && !sep.isEmpty then
      acc.reverse :: splitGoF sep fuel ((c :: rest).drop sep.length) []
    else
      splitGoF sep fuel rest (c :: acc)

/-- JavaScript `s.split(sep)` for a non-empty string separator: split at the
leftmost non-overlapping occurrences of `sep`. -/
def splitSub (sep s : Str) : List Str :=
  splitGoF sep (s.length + 1) s []

/-- `containsSeq sep s` is true iff (non-empty) `sep` occurs as a contiguous
subsequence of `s`. -/
def containsSeq (sep : Str) : Str → Bool
  | [] => false
  | c :: rest => (sep.isPrefixOf (c :: rest) && !sep.isEmpty) || containsSeq sep rest

/-- Strip a literal from the front, as one step of the regex match. -/
def stripPre (pre s : Str) : Option Str :=
  if pre.isPrefixOf s then some (s.drop pre.length) else none

/-- Greedy `(\d+)`: maximal run of decimal digits, failing on an empty run. -/
def readNat (s : Str) : Option (Nat × Str) :=
  if (s.takeWhile Char.isDigit).isEmpty then none
  else some (digitsVal (s.takeWhile Char.isDigit), s.dropWhile Char.isDigit)

/-- Greedy `\s*`. -/
def skipWs (s : Str) : Str := s.dropWhile jsSpace

/-- Attempt to match the detection-marker regex at the start of `s`. -/
def matchDetHere (s : Str) : Option (Nat × Nat × Nat × Nat) :=
  (stripPre (str "<|det|>[[") s).bind fun s1 =>
  (readNat s1).bind fun p1 =>
  (stripPre (str ",") p1.2).bind fun s2 =>
  (readNat (skipWs s2)).bind fun p2 =>
  (stripPre (str ",") p2.2).bind fun s3 =>
  (readNat (skipWs s3)).bind fun p3 =>
  (stripPre (str ",") p3.2).bind fun s4 =>
  (readNat (skipWs s4)).bind fun p4 =>
  (stripPre (str "]]<|/det|>") p4.2).map fun _ =>
    (p1.1, p2.1, p3.1, p4.1)

/-- `block.match(detRegex)`: the leftmost match of the detection marker. -/
def findDet : Str → Option (Nat × Nat × Nat × Nat)
  | [] => none
  | c :: rest =>
    match matchDetHere (c :: rest) with
    | some r => some r
    | none => findDet rest

structure TextRegion where
  text : Str
  bbox : Nat × Nat × Nat × Nat
deriving DecidableEq

/-- The literal the OCR output is segmented on. -/
def refDelim : Str := str "<|ref|>text<|/ref|>"

/-- The closing tag of a detection marker. -/
def closeDet : Str := str "<|/det|>"

/-- One block of the loop body of `parseOCRResult` (App.tsx lines 258-278):
find the detection marker, then take element 1 of
`block.split('<|/det|>')`, trimmed, skipping the block if it is missing or
empty. -/
def parseBlock (block : Str) : Option TextRegion :=
  match findDet block with
  | none => none
  | some bbox =>
    match (splitSub closeDet block)[1]? with
    | none => none
    | some seg =>
      let t := jsTrim seg
      if t.isEmpty then none else some ⟨t, bbox⟩

/-- `parseOCRResult` (App.tsx lines 252-281). -/
def parseOCRResult (text : Str) : List TextRegion :=
  ((splitSub refDelim text).filter (fun b => !(jsTrim b).isEmpty)).filterMap parseBlock

example :
    parseOCRResult (str "<|ref|>text<|/ref|><|det|>[[10,20,110,60]]<|/det|>Hello<|ref|>text<|/ref|><|det|>[[5,5,50,50]]<|/det|>World") =
      [⟨str "Hello", (10, 20, 110, 60)⟩, ⟨str "World", (5, 5, 50, 50)⟩] := by decide

/-! ### Lemmas about `splitSub` -/

theorem isPrefixOf_iff (p s : Str) : p.isPrefixOf s = true ↔ ∃ t, s = p ++ t := by
  induction p generalizing s with
  | nil => simp [List.isPrefixOf]
  | cons a as ih =>
    cases s with
    | nil => simp [List.isPrefixOf]
    | cons b bs =>
      simp only [List.isPrefixOf, Bool.and_eq_true, beq_iff_eq, ih]
      constructor
      · rintro ⟨rfl, t, rfl⟩
        exact ⟨t, rfl⟩
      · rintro ⟨t, h⟩
        injection h with h1 h2
        exact ⟨h1.symm, t, h2⟩

theorem take_len_append (p t : Str) : (p ++ t).take p.length = p := by
  induction p with
  | nil => simp
  | cons a as ih => simp [ih]

theorem drop_len_append (p t : Str) : (p ++ t).drop p.length = t := by
  induction p with
  | nil => simp
  | cons a as ih => simp [ih]

theorem take_append_le (p t : Str) (n : Nat) (h : n ≤ p.length) :
    (p ++ t).take n = p.take n := by
  induction p generalizing n with
  | nil =>
    have : n = 0 := by simpa using h
    simp [this]
  | cons a as ih =>
    cases n with
    | zero => simp
    | succ m =>
      simp only [List.cons_append, List.take_succ_cons]
      rw [ih m (by simpa using h)]

theorem drop_append_le (p t : Str) (n : Nat) (h : n ≤ p.length) :
    (p ++ t).drop n = p.drop n ++ t := by
  induction p generalizing n with
  | nil =>
    have : n = 0 := by simpa using h
    simp [this]
  | cons a as ih =>
    cases n with
    | zero => simp
    | succ m =>
      simp only [List.cons_append, List.drop_succ_cons]
      exact ih m (by simpa using h)

theorem splitGoF_irr (sep : Str) :
    ∀ fuel fuel' s acc, s.length < fuel → s.length < fuel' →
      splitGoF sep fuel s acc = splitGoF sep fuel' s acc := by
  intro fuel
  induction fuel with
  | zero => exact fun fuel' s acc h _ => absurd h (Nat.not_lt_zero _)
  | succ n ih =>
    intro fuel' s acc h h'
    cases fuel' with
    | zero => exact absurd h' (Nat.not_lt_zero _)
    | succ m =>
      cases s with
      | nil => rfl
      | cons c rest =>
        simp only [splitGoF]
        by_cases hc : (sep.isPrefixOf (c :: rest) && !sep.isEmpty) = true
        · rw [if_pos hc, if_pos hc]
          have hsl : 1 ≤ sep.length := by
            cases sep with
            | nil => simp at hc
            | cons x xs => simp
          simp only [List.length_cons] at h h'
          congr 1
          apply ih
          · simp only [List.length_drop, List.length_cons]; omega
          · simp only [List.length_drop, List.length_cons]; omega
        · rw [if_neg hc, if_neg hc]
          simp only [List.length_cons] at h h'
          apply ih <;> omega

theorem splitGoF_no_occ (sep : Str) :
    ∀ b acc fuel, b.length < fuel → containsSeq sep b = false →
      splitGoF sep fuel b acc = [acc.reverse ++ b] := by
  intro b
  induction b with
  | nil =>
    intro acc fuel h _
    cases fuel with
    | zero => exact absurd h (Nat.not_lt_zero _)
    | succ n => simp [splitGoF]
  | cons c rest ih =>
    intro acc fuel h hc
    cases fuel with
    | zero => exact absurd h (Nat.not_lt_zero _)
    | succ n =>
      simp only [containsSeq, Bool.or_eq_false_iff] at hc
      simp only [splitGoF]
      rw [if_neg (by simp [hc.1])]
      rw [ih (c :: acc) n (by simp only [List.length_cons] at h ⊢; omega) hc.2]
      simp [List.append_assoc]

/-- `sep` cannot overlap itself: no proper non-trivial border. This is what
rules out an occurrence of the delimiter spanning a block boundary. -/
def Overlapfree (sep : Str) : Prop :=
  ∀ s : Fin sep.length, s.val ≠ 0 → sep.take (sep.length - s.val) ≠ sep.drop s.val

theorem not_prefixOf_span (sep : Str) (hov : Overlapfree sep)
    (b : Str) (hb : b ≠ []) (hp : sep.isPrefixOf b = false) (t : Str) :
    sep.isPrefixOf (b ++ sep ++ t) = false := by
  cases h : sep.isPrefixOf (b ++ sep ++ t) with
  | false => rfl
  | true =>
    exfalso
    obtain ⟨r, hr⟩ := (isPrefixOf_iff _ _).mp h
    rw [List.append_assoc] at hr
    rcases le_or_lt sep.length b.length with hle | hlt
    · have h1 := congrArg (List.take sep.length) hr
      rw [take_append_le b (sep ++ t) _ hle, take_len_append] at h1
      have hbdec : b = sep ++ b.drop sep.length := by
        conv_lhs => rw [← List.take_append_drop sep.length b]
        rw [h1]
      have : sep.isPrefixOf b = true :=
        (isPrefixOf_iff _ _).mpr ⟨b.drop sep.length, hbdec⟩
      rw [hp] at this
      exact absurd this (by decide)
    · have h1 := congrArg (List.take b.length) hr
      rw [take_len_append, take_append_le sep r _ (Nat.le_of_lt hlt)] at h1
      have h2 := congrArg (List.drop b.length) hr
      rw [drop_len_append, drop_append_le sep r _ (Nat.le_of_lt hlt)] at h2
      have hdlen : (sep.drop b.length).length = sep.length - b.length := by
        simp [List.length_drop]
      have h3 : sep.take (sep.length - b.length) = sep.drop b.length := by
        have h4 := congrArg (List.take (sep.drop b.length).length) h2
        rw [take_len_append, hdlen, take_append_le sep t _ (by omega)] at h4
        exact h4
      have hbne : b.length ≠ 0 := by
        intro h0
        exact hb (List.length_eq_zero.mp h0)
      exact hov ⟨b.length, hlt⟩ hbne h3

theorem splitGoF_through (sep : Str) (hsep : sep ≠ []) (hov : Overlapfree sep) :
    ∀ b t acc fuel, (b ++ sep ++ t).length < fuel → containsSeq sep b = false →
      splitGoF sep fuel (b ++ sep ++ t) acc = (acc.reverse ++ b) :: splitSub sep t := by
  intro b
  induction b with
  | nil =>
    intro t acc fuel h _
    cases fuel with
    | zero => exact absurd h (Nat.not_lt_zero _)
    | succ n =>
      obtain ⟨d, ds, rfl⟩ : ∃ d ds, sep = d :: ds := by
        cases sep with
        | nil => exact absurd rfl hsep
        | cons d ds => exact ⟨d, ds, rfl⟩
      show splitGoF (d :: ds) (n + 1) (d :: (ds ++ t)) _ = _
      simp only [splitGoF]
      have hpre : (d :: ds).isPrefixOf (d :: (ds ++ t)) = true :=
        (isPrefixOf_iff _ _).mpr ⟨t, by simp⟩
      rw [if_pos (by simp [hpre])]
      have hdrop : (d :: (ds ++ t)).drop (d :: ds).length = t :=
        drop_len_append (d :: ds) t
      rw [hdrop]
      have hlen : t.length < n := by
        simp only [List.nil_append, List.length_append, List.length_cons] at h
        omega
      rw [splitGoF_irr (d :: ds) n (t.length + 1) t [] hlen (by omega)]
      simp [splitSub]
  | cons c b' ih =>
    intro t acc fuel h hc
    cases fuel with
    | zero => exact absurd h (Nat.not_lt_zero _)
    | succ n =>
      simp only [containsSeq, Bool.or_eq_false_iff] at hc
      have h1 : sep.isPrefixOf (c :: b') = false := by
        rcases Bool.and_eq_false_iff.mp hc.1 with h | h
        · exact h
        · exfalso
          have : sep.isEmpty = true := by
            cases hse : sep.isEmpty
            · rw [hse] at h; exact absurd h (by decide)
            · rfl
          exact hsep (List.isEmpty_iff.mp this)
      have hspan : sep.isPrefixOf ((c :: b') ++ sep ++ t) = false :=
        not_prefixOf_span sep hov (c :: b') (by simp) h1 t
      show splitGoF sep (n + 1) (c :: (b' ++ sep ++ t)) acc = _
      simp only [splitGoF]
      have hspan' : sep.isPrefixOf (c :: (b' ++ sep ++ t)) = false := hspan
      rw [if_neg (by simp only [hspan', Bool.false_and]; decide)]
      rw [ih t (c :: acc) n
        (by simp only [List.length_append, List.length_cons] at h ⊢; omega) hc.2]
      simp [List.append_assoc]

theorem splitSub_through (sep : Str) (hsep : sep ≠ []) (hov : Overlapfree sep)
    (b t : Str) (hc : containsSeq sep b = false) :
    splitSub sep (b ++ sep ++ t) = b :: splitSub sep t := by
  unfold splitSub
  rw [splitGoF_through sep hsep hov b t [] _ (by omega) hc]
  simp [splitSub]

theorem splitSub_single (sep b : Str) (hc : containsSeq sep b = false) :
    splitSub sep b = [b] := by
  unfold splitSub
  rw [splitGoF_no_occ sep b [] _ (by omega) hc]
  simp

theorem dropWhile_nil_all {p : Char → Bool} :
    ∀ l : Str, l.dropWhile p = [] → ∀ x ∈ l, p x = true := by
  intro l
  induction l with
  | nil => intro _ x hx; cases hx
  | cons a as ih =>
    intro h x hx
    rw [List.dropWhile_cons] at h
    by_cases hp : p a = true
    · rw [if_pos hp] at h
      rcases List.mem_cons.mp hx with rfl | hx'
      · exact hp
      · exact ih h x hx'
    · rw [if_neg hp] at h
      exact absurd h (by simp)

theorem jsTrim_cons_ne (c : Char) (hc : jsSpace c = false) (r : Str) :
    (jsTrim (c :: r)).isEmpty = false := by
  unfold jsTrim
  rw [List.dropWhile_cons, if_neg (by simp [hc])]
  cases hdw : ((c :: r).reverse).dropWhile jsSpace with
  | nil =>
    exfalso
    have := dropWhile_nil_all _ hdw c (by simp)
    rw [hc] at this
    exact absurd this (by decide)
  | cons y ys => simp

instance (sep : Str) : Decidable (Overlapfree sep) := by
  unfold Overlapfree
  infer_instance

theorem overlapfree_refDelim : Overlapfree refDelim := by decide

theorem overlapfree_closeDet : Overlapfree closeDet := by decide

/-! ### Well-formed blocks and the behaviour of the regex match on them -/

theorem stripPre_append (p r : Str) : stripPre p (p ++ r) = some r := by
  unfold stripPre
  rw [if_pos ((isPrefixOf_iff _ _).mpr ⟨r, rfl⟩), drop_len_append]

theorem takeWhile_all_append {p : Char → Bool} :
    ∀ (d : Str), (∀ c ∈ d, p c = true) → ∀ (x : Char), p x = false → ∀ (r : Str),
      (d ++ x :: r).takeWhile p = d ∧ (d ++ x :: r).dropWhile p = x :: r := by
  intro d
  induction d with
  | nil =>
    intro _ x hx r
    constructor
    · simp [List.takeWhile_cons, hx]
    · simp [List.dropWhile_cons, hx]
  | cons a as ih =>
    intro hall x hx r
    have ha : p a = true := hall a (by simp)
    obtain ⟨h1, h2⟩ := ih (fun c hc => hall c (by simp [hc])) x hx r
    constructor
    · simp [List.takeWhile_cons, ha, h1]
    · simp [List.dropWhile_cons, ha, h2]

theorem readNat_digits (d : Str) (hd1 : d ≠ []) (hd2 : ∀ c ∈ d, c.isDigit = true)
    (x : Char) (hx : x.isDigit = false) (r : Str) :
    readNat (d ++ x :: r) = some (digitsVal d, x :: r) := by
  obtain ⟨h1, h2⟩ := takeWhile_all_append d hd2 x hx r
  unfold readNat
  rw [h1, h2, if_neg (by simp [List.isEmpty_iff, hd1])]

theorem beq_false_of_isDigit_ne {c x : Char} (h : c.isDigit = true)
    (hx : x.isDigit = false) : (c == x) = false := by
  cases hbe : c == x with
  | false => rfl
  | true =>
    have hcx : c = x := beq_iff_eq.mp hbe
    subst hcx
    rw [h] at hx
    exact absurd hx (by decide)

theorem jsSpace_false_of_isDigit {c : Char} (h : c.isDigit = true) : jsSpace c = false := by
  unfold jsSpace
  rw [beq_false_of_isDigit_ne h (by decide), beq_false_of_isDigit_ne h (by decide),
    beq_false_of_isDigit_ne h (by decide), beq_false_of_isDigit_ne h (by decide),
    beq_false_of_isDigit_ne h (by decide), beq_false_of_isDigit_ne h (by decide),
    beq_false_of_isDigit_ne h (by decide)]
  rfl

theorem skipWs_of_head_digit (d : Str) (hne : d ≠ []) (hd : ∀ c ∈ d, c.isDigit = true)
    (X : Str) : skipWs (d ++ X) = d ++ X := by
  cases d with
  | nil => exact absurd rfl hne
  | cons c rest =>
    unfold skipWs
    rw [List.cons_append, List.dropWhile_cons,
      if_neg (by simp [jsSpace_false_of_isDigit (hd c (by simp))])]

/-- A syntactically well-formed block of the marker grammar, before rendering:
four digit strings and the trailing text. -/
structure RawBlock where
  d1 : Str
  d2 : Str
  d3 : Str
  d4 : Str
  txt : Str
deriving DecidableEq

/-- The rendered block: detection marker followed by the trailing text. -/
def RawBlock.render (b : RawBlock) : Str :=
  str "<|det|>[[" ++ b.d1 ++ str "," ++ b.d2 ++ str "," ++ b.d3 ++ str "," ++ b.d4 ++
    str "]]<|/det|>" ++ b.txt

/-- Well-formedness of a block: the four coordinates are non-empty digit
strings, the trailing text is non-empty after trimming, does not contain the
closing detection tag, and the whole block does not contain the `ref`
delimiter (it could not arise from splitting on that delimiter otherwise). -/
def RawBlock.WF (b : RawBlock) : Prop :=
  b.d1 ≠ [] ∧ (∀ c ∈ b.d1, c.isDigit = true) ∧
  b.d2 ≠ [] ∧ (∀ c ∈ b.d2, c.isDigit = true) ∧
  b.d3 ≠ [] ∧ (∀ c ∈ b.d3, c.isDigit = true) ∧
  b.d4 ≠ [] ∧ (∀ c ∈ b.d4, c.isDigit = true) ∧
  (jsTrim b.txt).isEmpty = false ∧
  containsSeq closeDet b.txt = false ∧
  containsSeq refDelim b.render = false

instance (b : RawBlock) : Decidable b.WF := by
  unfold RawBlock.WF
  infer_instance

/-- The region a well-formed block denotes. -/
def RawBlock.region (b : RawBlock) : TextRegion :=
  ⟨jsTrim b.txt, (digitsVal b.d1, digitsVal b.d2, digitsVal b.d3, digitsVal b.d4)⟩

theorem render_shape_nested (b : RawBlock) :
    b.render = str "<|det|>[[" ++
      (b.d1 ++ ',' :: (b.d2 ++ ',' :: (b.d3 ++ ',' :: (b.d4 ++ str "]]<|/det|>" ++ b.txt)))) := by
  unfold RawBlock.render
  simp only [List.append_assoc]
  rfl

theorem matchDetHere_render (b : RawBlock) (h : b.WF) :
    matchDetHere b.render =
      some (digitsVal b.d1, digitsVal b.d2, digitsVal b.d3, digitsVal b.d4) := by
  obtain ⟨h1, h1d, h2, h2d, h3, h3d, h4, h4d, -, -, -⟩ := h
  rw [render_shape_nested]
  unfold matchDetHere
  rw [stripPre_append]
  simp only [Option.some_bind]
  rw [readNat_digits b.d1 h1 h1d ',' (by decide)]
  simp only [Option.some_bind]
  rw [show stripPre (str ",")
      (',' :: (b.d2 ++ ',' :: (b.d3 ++ ',' :: (b.d4 ++ str "]]<|/det|>" ++ b.txt)))) =
    some (b.d2 ++ ',' :: (b.d3 ++ ',' :: (b.d4 ++ str "]]<|/det|>" ++ b.txt))) from
    stripPre_append (str ",") _]
  simp only [Option.some_bind]
  rw [skipWs_of_head_digit b.d2 h2 h2d]
  rw [readNat_digits b.d2 h2 h2d ',' (by decide)]
  simp only [Option.some_bind]
  rw [show stripPre (str ",") (',' :: (b.d3 ++ ',' :: (b.d4 ++ str "]]<|/det|>" ++ b.txt))) =
    some (b.d3 ++ ',' :: (b.d4 ++ str "]]<|/det|>" ++ b.txt)) from stripPre_append (str ",") _]
  simp only [Option.some_bind]
  rw [skipWs_of_head_digit b.d3 h3 h3d]
  rw [readNat_digits b.d3 h3 h3d ',' (by decide)]
  simp only [Option.some_bind]
  rw [show stripPre (str ",") (',' :: (b.d4 ++ str "]]<|/det|>" ++ b.txt)) =
    some (b.d4 ++ str "]]<|/det|>" ++ b.txt) from stripPre_append (str ",") _]
  simp only [Option.some_bind]
  rw [List.append_assoc b.d4 (str "]]<|/det|>") b.txt]
  rw [skipWs_of_head_digit b.d4 h4 h4d]
  rw [show b.d4 ++ (str "]]<|/det|>" ++ b.txt) =
    b.d4 ++ ']' :: (str "]<|/det|>" ++ b.txt) from rfl]
  rw [readNat_digits b.d4 h4 h4d ']' (by decide)]
  simp only [Option.some_bind]
  rw [show (']' :: (str "]<|/det|>" ++ b.txt)) = str "]]<|/det|>" ++ b.txt from rfl]
  rw [stripPre_append]
  rfl

theorem findDet_of_matchHere (s : Str) (r : Nat × Nat × Nat × Nat)
    (h : matchDetHere s = some r) : findDet s = some r := by
  cases s with
  | nil =>
    rw [show matchDetHere [] = none from rfl] at h
    cases h
  | cons c cs => simp [findDet, h]

theorem containsSeq_false_of_not_mem (sep s : Str) (x : Char) (hx : x ∈ sep)
    (h : ∀ c ∈ s, c ≠ x) : containsSeq sep s = false := by
  induction s with
  | nil => rfl
  | cons c rest ih =>
    simp only [containsSeq, Bool.or_eq_false_iff]
    constructor
    · cases hp : sep.isPrefixOf (c :: rest) with
      | false => simp
      | true =>
        exfalso
        obtain ⟨t, ht⟩ := (isPrefixOf_iff _ _).mp hp
        have hxm : x ∈ c :: rest := ht ▸ List.mem_append.mpr (Or.inl hx)
        exact h x hxm rfl
    · exact ih (fun c' hc' => h c' (by simp [hc']))

/-- The part of a rendered block before the closing detection tag. -/
def detPre (b : RawBlock) : Str :=
  str "<|det|>[[" ++ b.d1 ++ str "," ++ b.d2 ++ str "," ++ b.d3 ++ str "," ++ b.d4 ++ str "]]"

theorem render_shape_det (b : RawBlock) : b.render = detPre b ++ closeDet ++ b.txt := by
  unfold RawBlock.render detPre
  simp only [List.append_assoc]
  rfl

theorem detPre_no_slash (b : RawBlock) (h : b.WF) : ∀ c ∈ detPre b, c ≠ '/' := by
  obtain ⟨-, h1d, -, h2d, -, h3d, -, h4d, -, -, -⟩ := h
  intro c hc
  unfold detPre at hc
  simp only [List.mem_append] at hc
  have digitCase : ∀ {d : Str}, (∀ y ∈ d, y.isDigit = true) → c ∈ d → c ≠ '/' := by
    intro d hd hcd heq
    subst heq
    have : ('/' : Char).isDigit = true := hd '/' hcd
    exact absurd this (by decide)
  have lit1 : ∀ y ∈ str "<|det|>[[", y ≠ '/' := by decide
  have lit2 : ∀ y ∈ str ",", y ≠ '/' := by decide
  have lit3 : ∀ y ∈ str "]]", y ≠ '/' := by decide
  rcases hc with ((((((((hc | hc) | hc) | hc) | hc) | hc) | hc) | hc) | hc)
  · exact lit1 c hc
  · exact digitCase h1d hc
  · exact lit2 c hc
  · exact digitCase h2d hc
  · exact lit2 c hc
  · exact digitCase h3d hc
  · exact lit2 c hc
  · exact digitCase h4d hc
  · exact lit3 c hc

theorem splitSub_closeDet_render (b : RawBlock) (h : b.WF) :
    splitSub closeDet b.render = [detPre b, b.txt] := by
  have htxt : containsSeq closeDet b.txt = false := h.2.2.2.2.2.2.2.2.2.1
  rw [render_shape_det]
  rw [splitSub_through closeDet (by decide) overlapfree_closeDet _ _
    (containsSeq_false_of_not_mem closeDet (detPre b) '/' (by decide) (detPre_no_slash b h))]
  rw [splitSub_single closeDet b.txt htxt]

theorem parseBlock_render (b : RawBlock) (h : b.WF) : parseBlock b.render = some b.region := by
  have htrim : (jsTrim b.txt).isEmpty = false := h.2.2.2.2.2.2.2.2.1
  simp only [parseBlock, findDet_of_matchHere _ _ (matchDetHere_render b h),
    splitSub_closeDet_render b h]
  simp [htrim, RawBlock.region]

theorem render_trim_ne (b : RawBlock) : (jsTrim b.render).isEmpty = false := by
  have hshape : b.render = '<' :: (str "|det|>[[" ++ b.d1 ++ str "," ++ b.d2 ++ str "," ++
      b.d3 ++ str "," ++ b.d4 ++ str "]]<|/det|>" ++ b.txt) := by
    unfold RawBlock.render
    rfl
  rw [hshape]
  exact jsTrim_cons_ne '<' (by decide) _

/-- JavaScript string concatenation interleaving a delimiter: the input that
splits into the given blocks. -/
def joinSep (sep : Str) : List Str → Str
  | [] => []
  | [b] => b
  | b :: b' :: bs => b ++ sep ++ joinSep sep (b' :: bs)

theorem filterMap_filter_cons (f : Str → Option TextRegion) (p : Str → Bool) (b : Str)
    (S R : List Str) (h : (S.filter p).filterMap f = (R.filter p).filterMap f) :
    ((b :: S).filter p).filterMap f = ((b :: R).filter p).filterMap f := by
  rw [List.filter_cons, List.filter_cons]
  by_cases hb : p b = true
  · rw [if_pos hb, if_pos hb, List.filterMap_cons, List.filterMap_cons, h]
  · rw [if_neg hb, if_neg hb, h]

theorem parse_join (bs : List Str) (h : ∀ b ∈ bs, containsSeq refDelim b = false) :
    parseOCRResult (joinSep refDelim bs) =
      (bs.filter (fun b => !(jsTrim b).isEmpty)).filterMap parseBlock := by
  induction bs with
  | nil => decide
  | cons b rest ih =>
    cases rest with
    | nil =>
      unfold parseOCRResult
      rw [show joinSep refDelim [b] = b from rfl]
      rw [splitSub_single refDelim b (h b (by simp))]
    | cons b' rest' =>
      unfold parseOCRResult
      rw [show joinSep refDelim (b :: b' :: rest') =
        b ++ refDelim ++ joinSep refDelim (b' :: rest') from rfl]
      rw [splitSub_through refDelim (by decide) overlapfree_refDelim _ _ (h b (by simp))]
      have ih' := ih (fun x hx => h x (by simp [hx]))
      unfold parseOCRResult at ih'
      exact filterMap_filter_cons parseBlock _ b _ _ ih'

theorem parse_join_lead (bs : List Str) (h : ∀ b ∈ bs, containsSeq refDelim b = false) :
    parseOCRResult (refDelim ++ joinSep refDelim bs) =
      (bs.filter (fun b => !(jsTrim b).isEmpty)).filterMap parseBlock := by
  unfold parseOCRResult
  have hlead : splitSub refDelim (refDelim ++ joinSep refDelim bs) =
      [] :: splitSub refDelim (joinSep refDelim bs) :=
    splitSub_through refDelim (by decide) overlapfree_refDelim [] (joinSep refDelim bs) rfl
  rw [hlead]
  simp only [List.filter_cons]
  rw [if_neg (by decide)]
  have := parse_join bs h
  unfold parseOCRResult at this
  exact this

theorem filterMap_render (bs : List RawBlock) (h : ∀ b ∈ bs, b.WF) :
    ((bs.map RawBlock.render).filter (fun b => !(jsTrim b).isEmpty)).filterMap parseBlock =
      bs.map RawBlock.region := by
  induction bs with
  | nil => rfl
  | cons b rest ih =>
    have hb := h b (by simp)
    simp only [List.map_cons, List.filter_cons]
    rw [if_pos (by simp [render_trim_ne b])]
    simp only [List.filterMap_cons]
    rw [parseBlock_render b hb]
    rw [ih (fun x hx => h x (by simp [hx]))]

/-- Claim C1: an input made of N well-formed blocks, each introduced by the
literal delimiter `<|ref|>text<|/ref|>` and consisting of a detection marker
with four decimal-integer coordinates followed by non-empty trailing text,
parses to exactly N regions, in block order, each reproducing the block's
trimmed trailing text and its four integers. -/
theorem parse_completeness (bs : List RawBlock) (h : ∀ b ∈ bs, b.WF) :
    parseOCRResult (refDelim ++ joinSep refDelim (bs.map RawBlock.render)) =
      bs.map RawBlock.region := by
  rw [parse_join_lead (bs.map RawBlock.render) (by
    intro x hx
    obtain ⟨b, hb, rfl⟩ := List.mem_map.mp hx
    exact (h b hb).2.2.2.2.2.2.2.2.2.2)]
  exact filterMap_render bs h

def wBlock1 : RawBlock := ⟨str "10", str "20", str "110", str "60", str "Hello"⟩

def wBlock2 : RawBlock := ⟨str "5", str "5", str "50", str "50", str "World"⟩

theorem parse_completeness_witness :
    (∀ b ∈ [wBlock1, wBlock2], b.WF) ∧
      parseOCRResult (refDelim ++ joinSep refDelim ([wBlock1, wBlock2].map RawBlock.render)) =
        [wBlock1.region, wBlock2.region] :=
  ⟨by decide, parse_completeness [wBlock1, wBlock2] (by decide)⟩

/-- Claim C7: a block that fails to parse (missing detection marker,
non-numeric coordinates, or empty trailing text all make `parseBlock`
return `none`) contributes zero regions, silently: parsing of all later
blocks continues, and the parser is a total function (it never throws). -/
theorem parse_skip (pre post : List RawBlock) (bad : Str)
    (hpre : ∀ b ∈ pre, b.WF) (hpost : ∀ b ∈ post, b.WF)
    (hbadD : containsSeq refDelim bad = false)
    (hbadP : parseBlock bad = none) :
    parseOCRResult (refDelim ++ joinSep refDelim
        (pre.map RawBlock.render ++ bad :: post.map RawBlock.render)) =
      pre.map RawBlock.region ++ post.map RawBlock.region := by
  rw [parse_join_lead _ (by
    intro x hx
    rcases List.mem_append.mp hx with hx | hx
    · obtain ⟨b, hb, rfl⟩ := List.mem_map.mp hx
      exact (hpre b hb).2.2.2.2.2.2.2.2.2.2
    · rcases List.mem_cons.mp hx with rfl | hx
      · exact hbadD
      · obtain ⟨b, hb, rfl⟩ := List.mem_map.mp hx
        exact (hpost b hb).2.2.2.2.2.2.2.2.2.2)]
  rw [List.filter_append, List.filterMap_append]
  rw [filterMap_render pre hpre]
  congr 1
  rw [List.filter_cons]
  by_cases hb : (!(jsTrim bad).isEmpty) = true
  · rw [if_pos hb, List.filterMap_cons, hbadP]
    exact filterMap_render post hpost
  · rw [if_neg hb]
    exact filterMap_render post hpost

theorem parse_skip_witness :
    parseBlock (str "no marker here") = none ∧
      parseOCRResult (refDelim ++ joinSep refDelim
          ([wBlock1].map RawBlock.render ++ str "no marker here" ::
            [wBlock2].map RawBlock.render)) =
        [wBlock1.region] ++ [wBlock2.region] :=
  ⟨by decide,
    parse_skip [wBlock1] [wBlock2] (str "no marker here")
      (by decide) (by decide) (by decide) (by decide)⟩

/-- Claim C9: the four integers of a detection marker are stored as
`(x1, y1, x2, y2)` in textual order, with no ordering check: even when the
first coordinate exceeds the third (`x1 > x2`), the parsed region carries
exactly those values. -/
theorem bbox_order_unchecked (b : RawBlock) (h : b.WF)
    (hswap : digitsVal b.d3 < digitsVal b.d1) :
    parseOCRResult (refDelim ++ b.render) = [b.region] := by
  rw [show (refDelim ++ b.render : Str) =
    refDelim ++ joinSep refDelim ([b].map RawBlock.render) from rfl]
  rw [parse_join_lead _ (by
    intro x hx
    rcases List.mem_singleton.mp (by simpa using hx) with rfl
    exact h.2.2.2.2.2.2.2.2.2.2)]
  exact filterMap_render [b] (by
    intro x hx
    rcases List.mem_singleton.mp hx with rfl
    exact h)

def wBlock3 : RawBlock := ⟨str "100", str "7", str "5", str "9", str "swapped"⟩

theorem bbox_order_unchecked_witness :
    (wBlock3.WF ∧ digitsVal wBlock3.d3 < digitsVal wBlock3.d1) ∧
      parseOCRResult (refDelim ++ wBlock3.render) = [wBlock3.region] :=
  ⟨by decide, bbox_order_unchecked wBlock3 (by decide) (by decide)⟩

/-! ### The text a block contributes: between the first and second `<|/det|>` -/

/-- The characters of `s` strictly before the first occurrence of `sep`
(all of `s` if there is none). -/
def upToFirst (sep : Str) : Str → Str
  | [] => []
  | c :: rest =>
    if sep.isPrefixOf (c :: rest) && !sep.isEmpty then []
    else c :: upToFirst sep rest

/-- Everything in `s` after the first occurrence of `sep`, if any. -/
def afterFirst (sep : Str) : Str → Option Str
  | [] => none
  | c :: rest =>
    if sep.isPrefixOf (c :: rest) && !sep.isEmpty then some ((c :: rest).drop sep.length)
    else afterFirst sep rest

theorem upToFirst_of_none (sep : Str) :
    ∀ s, afterFirst sep s = none → upToFirst sep s = s := by
  intro s
  induction s with
  | nil => intro _; rfl
  | cons c rest ih =>
    intro h
    unfold afterFirst at h
    unfold upToFirst
    by_cases hc : (sep.isPrefixOf (c :: rest) && !sep.isEmpty) = true
    · rw [if_pos hc] at h; cases h
    · rw [if_neg hc] at h
      rw [if_neg hc, ih h]

theorem splitGoF_char (sep : Str) :
    ∀ s acc fuel, s.length < fuel →
      splitGoF sep fuel s acc =
        match afterFirst sep s with
        | none => [acc.reverse ++ s]
        | some t => (acc.reverse ++ upToFirst sep s) :: splitSub sep t := by
  intro s
  induction s with
  | nil =>
    intro acc fuel h
    cases fuel with
    | zero => exact absurd h (Nat.not_lt_zero _)
    | succ n => simp [splitGoF, afterFirst]
  | cons c rest ih =>
    intro acc fuel h
    cases fuel with
    | zero => exact absurd h (Nat.not_lt_zero _)
    | succ n =>
      by_cases hc : (sep.isPrefixOf (c :: rest) && !sep.isEmpty) = true
      · have e1 : afterFirst sep (c :: rest) = some ((c :: rest).drop sep.length) := by
          unfold afterFirst; rw [if_pos hc]
        have e2 : upToFirst sep (c :: rest) = [] := by
          unfold upToFirst; rw [if_pos hc]
        simp only [e1, e2, List.append_nil]
        simp only [splitGoF]
        rw [if_pos hc]
        have hsl : 1 ≤ sep.length := by
          cases sep with
          | nil => simp at hc
          | cons x xs => simp
        have hlen : ((c :: rest).drop sep.length).length < n := by
          simp only [List.length_drop, List.length_cons]
          simp only [List.length_cons] at h
          omega
        unfold splitSub
        rw [splitGoF_irr sep n (((c :: rest).drop sep.length).length + 1) _ [] hlen (by omega)]
      · have e1 : afterFirst sep (c :: rest) = afterFirst sep rest := by
          simp only [afterFirst]; rw [if_neg hc]
        have e2 : upToFirst sep (c :: rest) = c :: upToFirst sep rest := by
          simp only [upToFirst]; rw [if_neg hc]
        simp only [e1, e2]
        simp only [splitGoF]
        rw [if_neg hc]
        rw [ih (c :: acc) n (by simp only [List.length_cons] at h ⊢; omega)]
        cases hA : afterFirst sep rest with
        | none => simp
        | some t => simp

theorem splitSub_get1 (sep s : Str) :
    (splitSub sep s)[1]? = (afterFirst sep s).map (upToFirst sep) := by
  unfold splitSub
  rw [splitGoF_char sep s [] (s.length + 1) (by omega)]
  cases hA : afterFirst sep s with
  | none => simp
  | some t =>
    simp only [List.reverse_nil, List.nil_append, Option.map_some']
    rw [List.getElem?_cons_succ]
    unfold splitSub
    rw [splitGoF_char sep t [] (t.length + 1) (by omega)]
    cases hA2 : afterFirst sep t with
    | none => rw [upToFirst_of_none sep t hA2]; simp
    | some t2 => simp

/-- Claim C6 (amended): the text of a parsed region is the segment of the
block strictly between the first and second occurrences of `<|/det|>`
(everything after the first when there is no second), trimmed — not
"everything after the first closing tag": `block.split('<|/det|>')[1]`
stops at the next occurrence of the tag. -/
theorem text_between_det_tags (block : Str) (r : TextRegion)
    (h : parseBlock block = some r) :
    ∃ t, afterFirst closeDet block = some t ∧ r.text = jsTrim (upToFirst closeDet t) := by
  unfold parseBlock at h
  cases hf : findDet block with
  | none => rw [hf] at h; cases h
  | some bbox =>
    rw [hf] at h
    cases hs : (splitSub closeDet block)[1]? with
    | none => rw [hs] at h; cases h
    | some seg =>
      rw [hs] at h
      rw [splitSub_get1] at hs
      obtain ⟨t, ht, hseg⟩ := Option.map_eq_some'.mp hs
      have h2 : (if (jsTrim seg).isEmpty = true then (none : Option TextRegion)
          else some ⟨jsTrim seg, bbox⟩) = some r := h
      by_cases he : (jsTrim seg).isEmpty = true
      · rw [if_pos he] at h2; cases h2
      · rw [if_neg he] at h2
        injection h2 with h'
        subst h'
        exact ⟨t, ht, by rw [hseg]⟩

def c6Block : Str := str "<|det|>[[1,2,3,4]]<|/det|>foo<|det|>[[5,6,7,8]]<|/det|>bar"

/-- Claim C6 as stated is false: in a block containing two detection
markers, the parsed region's text is `"foo<|det|>[[5,6,7,8]]"`, while
"everything in the block following the first `<|/det|>`, trimmed" is
`"foo<|det|>[[5,6,7,8]]<|/det|>bar"` — the text after the second
occurrence of the closing tag is dropped. -/
theorem c6_counterexample :
    parseOCRResult (refDelim ++ c6Block) =
        [⟨str "foo<|det|>[[5,6,7,8]]", (1, 2, 3, 4)⟩] ∧
      afterFirst closeDet c6Block = some (str "foo<|det|>[[5,6,7,8]]<|/det|>bar") ∧
      jsTrim (str "foo<|det|>[[5,6,7,8]]<|/det|>bar") =
        str "foo<|det|>[[5,6,7,8]]<|/det|>bar" ∧
      str "foo<|det|>[[5,6,7,8]]" ≠ str "foo<|det|>[[5,6,7,8]]<|/det|>bar" :=
  ⟨by decide, by decide, by decide, by decide⟩

theorem text_between_det_tags_witness :
    parseBlock c6Block = some ⟨str "foo<|det|>[[5,6,7,8]]", (1, 2, 3, 4)⟩ ∧
      ∃ t, afterFirst closeDet c6Block = some t ∧
        (str "foo<|det|>[[5,6,7,8]]" : Str) = jsTrim (upToFirst closeDet t) :=
  ⟨by decide, text_between_det_tags c6Block ⟨str "foo<|det|>[[5,6,7,8]]", (1, 2, 3, 4)⟩ (by decide)⟩

/-!
### The session state machine

The component state of the App (App.tsx lines 100-117) together with the
resource book-keeping needed to talk about liveness: `liveOverlayHandles`
records object URLs created for overlay blobs and not yet revoked,
`liveStreams` records media streams acquired and not yet stopped, and
`nextHandle` is a fresh-handle allocator.  Files, URLs and streams are
identified by natural numbers.

Asynchronous handlers are modelled at event granularity: each handler runs
to completion within one step, with the outcome of its awaited operation
(fetch result, media acquisition, image decode, blob encode) supplied as
event data.  `capturedOverlayUrl` models the closure capture of
`overlayImageUrl` by an in-flight `handleOCR` (the value the completion
code will pass to `cleanupOverlayImage`), which is the render-time value,
not the completion-time value.
-/

structure Session where
  selectedFile : Option Nat
  ocrResult : Str
  textRegions : List TextRegion
  overlayImageUrl : Option Nat
  isLoading : Bool
  showWebcam : Bool
  stream : Option Nat
  capturedOverlayUrl : Option Nat
  nextHandle : Nat
  liveOverlayHandles : List Nat
  liveStreams : List Nat
deriving DecidableEq

def sessionInit : Session :=
  ⟨none, [], [], none, false, false, none, none, 0, [], []⟩

/-- `cleanupOverlayImage` (App.tsx lines 30-35): if the passed URL is
non-null, revoke it and null the state field. -/
def cleanupOverlayImage (s : Session) (overlayImageUrl : Option Nat) : Session :=
  match overlayImageUrl with
  | some url =>
    { s with liveOverlayHandles := s.liveOverlayHandles.erase url, overlayImageUrl := none }
  | none => s

/-- `resetOcrState` (App.tsx lines 37-46): clear result text and regions and
release the current overlay URL, as one synchronous step. -/
def resetOcrState (s : Session) : Session :=
  cleanupOverlayImage { s with ocrResult := [], textRegions := [] } s.overlayImageUrl

/-- `handleFileSelect` (App.tsx lines 160-166): if a file was chosen,
commit it and reset the OCR state. -/
def handleFileSelect (s : Session) (file : Option Nat) : Session :=
  match file with
  | some f => resetOcrState { s with selectedFile := some f }
  | none => s

/-- Outcome of the recognition fetch as observed by `handleOCR`:
`success text` for `data.success` truthy, `failure error` for a response
with falsy `success` (`error` absent modelled as `none`), and
`transportError` when the fetch or JSON decode rejects. -/
inductive FetchOutcome where
  | success (text : Str)
  | failure (error : Option Str)
  | transportError
deriving DecidableEq

def fallbackFailMsg : Str := str "Failed to process image"

/-- `` `Error: ${data.error || "Failed to process image"}` `` — note the
JavaScript truthiness: an empty `data.error` also selects the fallback. -/
def failureText (error : Option Str) : Str :=
  str "Error: " ++ (match error with
    | some e => if e.isEmpty then fallbackFailMsg else e
    | none => fallbackFailMsg)

def transportFailText : Str := str "Error: Failed to connect to OCR service"

/-- The synchronous prefix of `handleOCR` (App.tsx line 286): set the
loading flag; the closure retains the current `overlayImageUrl`. -/
def extractBegin (s : Session) : Session :=
  { s with isLoading := true, capturedOverlayUrl := s.overlayImageUrl }

/-- The `finally` block (App.tsx lines 318-320), plus the death of the
handler closure. -/
def extractFinally (s : Session) : Session :=
  { s with isLoading := false, capturedOverlayUrl := none }

/-- The continuation of `handleOCR` after the fetch (App.tsx lines
298-320).  Note that no branch resets state before writing its own values,
and that the success branch keeps `parseOCRResult` output. -/
def extractComplete (s : Session) (outcome : FetchOutcome) : Session :=
  match outcome with
  | .success t =>
    extractFinally (cleanupOverlayImage
      { s with ocrResult := t, textRegions := parseOCRResult t } s.capturedOverlayUrl)
  | .failure e =>
    extractFinally (cleanupOverlayImage
      { s with ocrResult := failureText e, textRegions := [] } s.capturedOverlayUrl)
  | .transportError =>
    extractFinally (cleanupOverlayImage
      { s with ocrResult := transportFailText, textRegions := [] } s.capturedOverlayUrl)

/-- `handleOCR` (App.tsx lines 283-321) run to completion with no
interleaved events: early return when no file is selected, otherwise the
synchronous prefix followed by the continuation. -/
def handleOCR (s : Session) (outcome : FetchOutcome) : Session :=
  match s.selectedFile with
  | none => s
  | some _ => extractComplete (extractBegin s) outcome

/-- How a call of `createOverlayImage` resolves, as observed by a caller
awaiting it: with the blob URL, with `undefined` (an early `return` in the
async function), or never (the promise executor never calls `resolve`). -/
inductive ComposeRes where
  | resolvedUrl
  | resolvedUndefined
  | neverResolves
deriving DecidableEq

/-- `createOverlayImage` (App.tsx lines 177-238).  `imageRefOk` is whether
`imageRef.current` is non-null, `ctxOk` whether `getContext('2d')` returns
a context, `decodeOk` whether the image fires `onload`, `blobOk` whether
`toBlob` produces a non-null blob.  On decode or encode failure the
promise never resolves; on the early returns it resolves `undefined`; no
path rejects or throws. -/
def createOverlayImage (s : Session) (imageRefOk ctxOk decodeOk blobOk : Bool) :
    Session × ComposeRes :=
  if s.selectedFile.isNone || s.textRegions.isEmpty || !imageRefOk then
    (s, .resolvedUndefined)
  else if !ctxOk then (s, .resolvedUndefined)
  else if !decodeOk then (s, .neverResolves)
  else if !blobOk then (s, .neverResolves)
  else
    ({ s with overlayImageUrl := some s.nextHandle,
              liveOverlayHandles := s.nextHandle :: s.liveOverlayHandles,
              nextHandle := s.nextHandle + 1 }, .resolvedUrl)

/-- `stopWebcam` (App.tsx lines 372-378): stop all tracks of the current
stream, null it, and close the webcam UI. -/
def stopWebcam (s : Session) : Session :=
  { s with
    liveStreams := (match s.stream with
      | some u => s.liveStreams.erase u
      | none => s.liveStreams),
    stream := none, showWebcam := false }

/-- `startWebcam` (App.tsx lines 324-370) run to completion: on a successful
`getUserMedia` (any rung of the fallback ladder) store the stream and open
the webcam UI; on failure only an alert is shown. -/
def startWebcam (s : Session) (ok : Bool) : Session :=
  if ok then
    { s with stream := some s.nextHandle, liveStreams := s.nextHandle :: s.liveStreams,
             showWebcam := true, nextHandle := s.nextHandle + 1 }
  else s

/-- `capturePhoto` (App.tsx lines 380-406): if the refs and the drawing
context are available (`refsOk`) and `toBlob` yields a blob (`blobOk`),
commit the captured file, reset the OCR state, and stop the webcam. -/
def capturePhoto (s : Session) (refsOk blobOk : Bool) : Session :=
  if refsOk && blobOk then
    stopWebcam (resetOcrState
      { s with selectedFile := some s.nextHandle, nextHandle := s.nextHandle + 1 })
  else s

/-- The user-triggerable workflow events, each carrying the outcome of its
asynchronous parts. -/
inductive Event where
  | fileSelect (file : Option Nat)
  | extractStart
  | extractFinish (outcome : FetchOutcome)
  | overlayClick (imageRefOk ctxOk decodeOk blobOk : Bool)
  | webcamToggle (ok : Bool)
  | captureClick (refsOk blobOk : Bool)
  | downloadClick

/-- One workflow step.  The guards are the UI enablement conditions:
the Extract button is disabled while no file is selected or a request is
loading (line 581); the Create-Overlay button is disabled while an overlay
exists (line 542); the camera button toggles between start and stop
(line 448); capture is only offered while the webcam is open (line 481);
`downloadOverlayImage` mutates no session state.  An `extractFinish`
without a pending request cannot occur and is a no-op. -/
def step (s : Session) : Event → Session
  | .fileSelect f => handleFileSelect s f
  | .extractStart =>
    if s.selectedFile.isNone || s.isLoading then s else extractBegin s
  | .extractFinish oc =>
    if s.isLoading then extractComplete s oc else s
  | .overlayClick r c d b =>
    if s.overlayImageUrl.isSome then s else (createOverlayImage s r c d b).1
  | .webcamToggle ok =>
    if s.showWebcam then stopWebcam s else startWebcam s ok
  | .captureClick r b =>
    if s.showWebcam then capturePhoto s r b else s
  | .downloadClick => s

def runEvents (s : Session) (evs : List Event) : Session := evs.foldl step s

def optList : Option Nat → List Nat
  | some u => [u]
  | none => []

/-- The resource invariant: the live handle lists track the state fields,
streams are only live while the webcam is open, and an in-flight request's
captured overlay URL can only disagree with the current one in ways the
completion code handles without leaking (it equals the current URL whenever
both are set, and if it is set while the current URL has since been
cleared, the region list has been cleared with it, so no new overlay can
have been created in between). -/
def SessionInv (s : Session) : Prop :=
  s.liveOverlayHandles = optList s.overlayImageUrl ∧
  s.liveStreams = optList s.stream ∧
  (s.showWebcam = false → s.stream = none) ∧
  (s.isLoading = true → s.capturedOverlayUrl = s.overlayImageUrl ∨
    s.capturedOverlayUrl = none ∨ s.overlayImageUrl = none) ∧
  (s.isLoading = true → s.capturedOverlayUrl ≠ none → s.overlayImageUrl = none →
    s.textRegions = [])

theorem sessionInit_inv : SessionInv sessionInit := by
  refine ⟨rfl, rfl, fun _ => rfl, ?_, ?_⟩
  · intro h; cases h
  · intro h; cases h

theorem extractComplete_inv (s : Session) (oc : FetchOutcome)
    (h : SessionInv s) (hl : s.isLoading = true) : SessionInv (extractComplete s oc) := by
  obtain ⟨h1, h2, h3, h4, h5⟩ := h
  have key : ∀ (newOcr : Str) (newRegions : List TextRegion),
      SessionInv (extractFinally (cleanupOverlayImage
        { s with ocrResult := newOcr, textRegions := newRegions } s.capturedOverlayUrl)) := by
    intro newOcr newRegions
    cases hc : s.capturedOverlayUrl with
    | none =>
      simp only [cleanupOverlayImage, extractFinally]
      exact ⟨h1, h2, h3, (by intro hx; simp at hx), (by intro hx; simp at hx)⟩
    | some u =>
      simp only [cleanupOverlayImage, extractFinally]
      refine ⟨?_, h2, h3, (by intro hx; simp at hx), (by intro hx; simp at hx)⟩
      show s.liveOverlayHandles.erase u = optList none
      rcases h4 hl with heq | hnone | honone
      · rw [heq] at hc
        rw [h1, hc]
        simp [optList]
      · rw [hnone] at hc
        cases hc
      · rw [honone] at h1
        rw [h1]
        rfl
  cases oc with
  | success t => exact key t (parseOCRResult t)
  | failure e => exact key (failureText e) []
  | transportError => exact key transportFailText []

theorem step_inv (s : Session) (e : Event) (h : SessionInv s) : SessionInv (step s e) := by
  obtain ⟨h1, h2, h3, h4, h5⟩ := h
  cases e with
  | fileSelect f =>
    cases f with
    | none => exact ⟨h1, h2, h3, h4, h5⟩
    | some f =>
      cases ho : s.overlayImageUrl with
      | none =>
        simp only [step, handleFileSelect, resetOcrState, cleanupOverlayImage, ho]
        rw [ho] at h1
        exact ⟨h1, h2, h3, fun _ => Or.inr (Or.inr rfl), fun _ _ _ => rfl⟩
      | some u =>
        simp only [step, handleFileSelect, resetOcrState, cleanupOverlayImage, ho]
        refine ⟨?_, h2, h3, fun _ => Or.inr (Or.inr rfl), fun _ _ _ => rfl⟩
        show s.liveOverlayHandles.erase u = optList none
        rw [h1, ho]
        simp [optList]
  | extractStart =>
    simp only [step]
    by_cases hg : (s.selectedFile.isNone || s.isLoading) = true
    · rw [if_pos hg]
      exact ⟨h1, h2, h3, h4, h5⟩
    · rw [if_neg hg]
      exact ⟨h1, h2, h3, fun _ => Or.inl rfl, fun _ hne hnone => absurd hnone hne⟩
  | extractFinish oc =>
    simp only [step]
    by_cases hl : s.isLoading = true
    · rw [if_pos hl]
      exact extractComplete_inv s oc ⟨h1, h2, h3, h4, h5⟩ hl
    · rw [if_neg hl]
      exact ⟨h1, h2, h3, h4, h5⟩
  | overlayClick r c d b =>
    cases ho : s.overlayImageUrl with
    | some u =>
      simp [step, ho]
      exact ⟨h1, h2, h3, h4, h5⟩
    | none =>
      simp [step, ho]
      unfold createOverlayImage
      by_cases hg1 : (s.selectedFile.isNone || s.textRegions.isEmpty || !r) = true
      · rw [if_pos hg1]; exact ⟨h1, h2, h3, h4, h5⟩
      · rw [if_neg hg1]
        by_cases hc2 : (!c) = true
        · rw [if_pos hc2]; exact ⟨h1, h2, h3, h4, h5⟩
        · rw [if_neg hc2]
          by_cases hc3 : (!d) = true
          · rw [if_pos hc3]; exact ⟨h1, h2, h3, h4, h5⟩
          · rw [if_neg hc3]
            by_cases hc4 : (!b) = true
            · rw [if_pos hc4]; exact ⟨h1, h2, h3, h4, h5⟩
            · rw [if_neg hc4]
              have hlive : s.liveOverlayHandles = [] := by rw [h1, ho]; rfl
              have hregs : s.textRegions.isEmpty = false := by
                cases hv : s.textRegions.isEmpty
                · rfl
                · exact absurd (by rw [hv]; simp) hg1
              refine ⟨?_, h2, h3, ?_, ?_⟩
              · show s.nextHandle :: s.liveOverlayHandles = optList (some s.nextHandle)
                rw [hlive]
                rfl
              · intro hl
                right; left
                by_contra hcn
                have hz := h5 hl hcn ho
                rw [hz] at hregs
                exact Bool.noConfusion hregs
              · intro _ _ hx
                cases hx
  | webcamToggle ok =>
    simp only [step]
    by_cases hw : s.showWebcam = true
    · rw [if_pos hw]
      simp only [stopWebcam]
      cases hst : s.stream with
      | none =>
        rw [hst] at h2
        exact ⟨h1, h2, fun _ => rfl, h4, h5⟩
      | some u =>
        rw [hst] at h2
        refine ⟨h1, ?_, fun _ => rfl, h4, h5⟩
        show s.liveStreams.erase u = optList none
        rw [h2]
        simp [optList]
    · rw [if_neg hw]
      have hw' : s.showWebcam = false := by
        cases hb : s.showWebcam
        · rfl
        · exact absurd hb hw
      have hstream : s.stream = none := h3 hw'
      simp only [startWebcam]
      by_cases hok : ok = true
      · rw [if_pos hok]
        refine ⟨h1, ?_, (by intro hx; simp at hx), h4, h5⟩
        show s.nextHandle :: s.liveStreams = optList (some s.nextHandle)
        rw [h2, hstream]
        rfl
      · rw [if_neg hok]
        exact ⟨h1, h2, h3, h4, h5⟩
  | captureClick r b =>
    simp only [step]
    by_cases hw : s.showWebcam = true
    · rw [if_pos hw]
      simp only [capturePhoto]
      by_cases hrb : (r && b) = true
      · rw [if_pos hrb]
        cases ho : s.overlayImageUrl with
        | none =>
          simp only [resetOcrState, cleanupOverlayImage, stopWebcam, ho]
          rw [ho] at h1
          cases hst : s.stream with
          | none =>
            rw [hst] at h2
            exact ⟨h1, h2, fun _ => rfl, fun _ => Or.inr (Or.inr rfl), fun _ _ _ => rfl⟩
          | some v =>
            rw [hst] at h2
            refine ⟨h1, ?_, fun _ => rfl, fun _ => Or.inr (Or.inr rfl), fun _ _ _ => rfl⟩
            show s.liveStreams.erase v = optList none
            rw [h2]
            simp [optList]
        | some u =>
          simp only [resetOcrState, cleanupOverlayImage, stopWebcam, ho]
          cases hst : s.stream with
          | none =>
            rw [hst] at h2
            refine ⟨?_, h2, fun _ => rfl, fun _ => Or.inr (Or.inr rfl), fun _ _ _ => rfl⟩
            show s.liveOverlayHandles.erase u = optList none
            rw [h1, ho]
            simp [optList]
          | some v =>
            rw [hst] at h2
            refine ⟨?_, ?_, fun _ => rfl, fun _ => Or.inr (Or.inr rfl), fun _ _ _ => rfl⟩
            · show s.liveOverlayHandles.erase u = optList none
              rw [h1, ho]
              simp [optList]
            · show s.liveStreams.erase v = optList none
              rw [h2]
              simp [optList]
      · rw [if_neg hrb]
        exact ⟨h1, h2, h3, h4, h5⟩
    · rw [if_neg hw]
      exact ⟨h1, h2, h3, h4, h5⟩
  | downloadClick => exact ⟨h1, h2, h3, h4, h5⟩

theorem runEvents_inv (evs : List Event) (s : Session) (h : SessionInv s) :
    SessionInv (runEvents s evs) := by
  induction evs generalizing s with
  | nil => exact h
  | cons e rest ih => exact ih (step s e) (step_inv s e h)

/-- Claim C3: across every sequence of workflow operations, at every
observed instant at most one OverlayImage handle and at most one
CaptureStream are live (each operation is modelled as one atomic step,
with its asynchronous outcomes as event data; creation is guarded by the
UI so that any existing instance of the same kind has been released
first). -/
theorem resource_bound (evs : List Event) :
    (runEvents sessionInit evs).liveOverlayHandles.length ≤ 1 ∧
      (runEvents sessionInit evs).liveStreams.length ≤ 1 := by
  obtain ⟨h1, h2, -, -, -⟩ := runEvents_inv evs sessionInit sessionInit_inv
  constructor
  · rw [h1]
    cases (runEvents sessionInit evs).overlayImageUrl <;> simp [optList]
  · rw [h2]
    cases (runEvents sessionInit evs).stream <;> simp [optList]

/-! ### Reset behaviour (C2, C4), guard no-ops (C10), compositor outcomes (C5) -/

/-- Every error text the component ever writes starts with `"Error: "`. -/
def isErrorString (t : Str) : Bool := (str "Error: ").isPrefixOf t

theorem isPrefixOf_append_self (p t : Str) : p.isPrefixOf (p ++ t) = true :=
  (isPrefixOf_iff _ _).mpr ⟨t, rfl⟩

def c2Text : Str := str "<|ref|>text<|/ref|><|det|>[[1,2,3,4]]<|/det|>hi"

def c2Trace : List Event :=
  [.fileSelect (some 1), .extractStart, .extractFinish (.success c2Text),
   .overlayClick true true true true, .extractStart]

def c2State : Session := runEvents sessionInit c2Trace

/-- Claim C2 is false as stated: "a new extraction attempt begins" is not a
reset point.  After selecting a file, extracting successfully, creating an
overlay, and then beginning a second extraction, the observed state still
has the old (non-error) result text, a non-empty region sequence, and a
live overlay handle — `handleOCR` performs no reset when it starts. -/
theorem c2_counterexample :
    ((c2State.ocrResult = [] ∨ isErrorString c2State.ocrResult = true) ∧
      c2State.textRegions = [] ∧ c2State.overlayImageUrl = none) = False :=
  eq_false (by decide)

/-- Claim C2 (amended): the atomic reset — result text cleared or set to an
error string, region sequence emptied, overlay handle released — executes
when a new SourceImage is committed (file selection or webcam capture) and
when an extraction attempt fails; no reset occurs when an extraction
attempt begins (the prior text, regions and overlay persist until the
attempt completes, as the counterexample shows). -/
theorem atomic_reset_on_commit_and_failure :
    (∀ s f, ((handleFileSelect s (some f)).ocrResult = [] ∧
      (handleFileSelect s (some f)).textRegions = [] ∧
      (handleFileSelect s (some f)).overlayImageUrl = none)) ∧
    (∀ s, ((capturePhoto s true true).ocrResult = [] ∧
      (capturePhoto s true true).textRegions = [] ∧
      (capturePhoto s true true).overlayImageUrl = none)) ∧
    (∀ s e f, s.selectedFile = some f →
      (isErrorString (handleOCR s (.failure e)).ocrResult = true ∧
        (handleOCR s (.failure e)).textRegions = [] ∧
        (handleOCR s (.failure e)).overlayImageUrl = none)) ∧
    (∀ s f, s.selectedFile = some f →
      (isErrorString (handleOCR s .transportError).ocrResult = true ∧
        (handleOCR s .transportError).textRegions = [] ∧
        (handleOCR s .transportError).overlayImageUrl = none)) := by
  refine ⟨?_, ?_, ?_, ?_⟩
  · intro s f
    simp only [handleFileSelect, resetOcrState]
    cases ho : s.overlayImageUrl <;> simp [cleanupOverlayImage, ho]
  · intro s
    simp only [capturePhoto]
    rw [if_pos (show (true && true) = true from rfl)]
    cases ho : s.overlayImageUrl <;>
      simp [stopWebcam, resetOcrState, cleanupOverlayImage, ho]
  · intro s e f hf
    simp only [handleOCR, hf, extractComplete, extractBegin, extractFinally]
    cases ho : s.overlayImageUrl <;> simp [cleanupOverlayImage, ho] <;>
      exact isPrefixOf_append_self (str "Error: ") _
  · intro s f hf
    simp only [handleOCR, hf, extractComplete, extractBegin, extractFinally]
    cases ho : s.overlayImageUrl <;> simp [cleanupOverlayImage, ho] <;>
      exact isPrefixOf_append_self (str "Error: ") _

def sFile1 : Session := { sessionInit with selectedFile := some 1 }

theorem atomic_reset_witness :
    isErrorString (handleOCR sFile1 (.failure none)).ocrResult = true ∧
      (handleOCR sFile1 (.failure none)).textRegions = [] ∧
      (handleOCR sFile1 (.failure none)).overlayImageUrl = none :=
  atomic_reset_on_commit_and_failure.2.2.1 sFile1 none 1 rfl

/-- Claim C4: every failed extraction attempt — transport-level (the fetch
rejects) or service-level (the response's success field is falsy) — sets
the result text to the error indicator (the service-supplied message when
non-empty, otherwise the generic fallback), clears the region sequence,
releases any live overlay handle, and ends not loading with the source
still selected (back to `SourceSelected`). -/
theorem extraction_failure_resets (s : Session) (f : Nat) (hf : s.selectedFile = some f)
    (hlive : s.liveOverlayHandles = optList s.overlayImageUrl) :
    (∀ e, (handleOCR s (.failure e)).ocrResult = failureText e ∧
      (handleOCR s (.failure e)).textRegions = [] ∧
      (handleOCR s (.failure e)).overlayImageUrl = none ∧
      (handleOCR s (.failure e)).liveOverlayHandles = [] ∧
      (handleOCR s (.failure e)).isLoading = false ∧
      (handleOCR s (.failure e)).selectedFile = some f) ∧
    ((handleOCR s .transportError).ocrResult = transportFailText ∧
      (handleOCR s .transportError).textRegions = [] ∧
      (handleOCR s .transportError).overlayImageUrl = none ∧
      (handleOCR s .transportError).liveOverlayHandles = [] ∧
      (handleOCR s .transportError).isLoading = false ∧
      (handleOCR s .transportError).selectedFile = some f) ∧
    (∀ m, m ≠ [] → failureText (some m) = str "Error: " ++ m) ∧
    failureText none = str "Error: " ++ fallbackFailMsg := by
  refine ⟨?_, ?_, ?_, rfl⟩
  · intro e
    simp only [handleOCR, hf, extractComplete, extractBegin, extractFinally]
    cases ho : s.overlayImageUrl with
    | none =>
      rw [ho] at hlive
      simp [cleanupOverlayImage, ho, hlive, hf, optList]
    | some u =>
      rw [ho] at hlive
      simp [cleanupOverlayImage, ho, hlive, optList, hf]
  · simp only [handleOCR, hf, extractComplete, extractBegin, extractFinally]
    cases ho : s.overlayImageUrl with
    | none =>
      rw [ho] at hlive
      simp [cleanupOverlayImage, ho, hlive, hf, optList]
    | some u =>
      rw [ho] at hlive
      simp [cleanupOverlayImage, ho, hlive, optList, hf]
  · intro m hm
    simp [failureText, List.isEmpty_iff, hm]

def sFile2 : Session := { sessionInit with selectedFile := some 2 }

theorem extraction_failure_resets_witness :
    (handleOCR sFile2 FetchOutcome.transportError).ocrResult = transportFailText ∧
      (handleOCR sFile2 FetchOutcome.transportError).textRegions = [] ∧
      (handleOCR sFile2 FetchOutcome.transportError).overlayImageUrl = none ∧
      (handleOCR sFile2 FetchOutcome.transportError).liveOverlayHandles = [] ∧
      (handleOCR sFile2 FetchOutcome.transportError).isLoading = false ∧
      (handleOCR sFile2 FetchOutcome.transportError).selectedFile = some 2 :=
  (extraction_failure_resets sFile2 2 rfl rfl).2.1

/-- Claim C10: invoking extraction with no committed SourceImage returns
immediately with every piece of session state unchanged; invoking overlay
creation with an empty region sequence or no source file likewise changes
no state (and resolves `undefined`). -/
theorem guard_noops :
    (∀ s oc, s.selectedFile = none → handleOCR s oc = s) ∧
    (∀ s r c d b, s.selectedFile = none ∨ s.textRegions = [] →
      (createOverlayImage s r c d b).1 = s ∧
      (createOverlayImage s r c d b).2 = ComposeRes.resolvedUndefined) := by
  constructor
  · intro s oc h
    simp [handleOCR, h]
  · intro s r c d b h
    have hcond : (s.selectedFile.isNone || s.textRegions.isEmpty || !r) = true := by
      rcases h with h | h
      · simp [h]
      · simp [h]
    simp [createOverlayImage, hcond]

theorem guard_noops_witness :
    handleOCR sessionInit (.success (str "x")) = sessionInit ∧
      (createOverlayImage sessionInit true true true true).1 = sessionInit :=
  ⟨guard_noops.1 sessionInit _ rfl,
    (guard_noops.2 sessionInit true true true true (Or.inl rfl)).1⟩

def c5S : Session :=
  { sessionInit with selectedFile := some 1, textRegions := [⟨str "x", (0, 0, 1, 1)⟩] }

/-- Claim C5 is false as stated: when the source image fails to decode
(`img.onload` never fires), `createOverlayImage` does not resolve at all —
neither with an explicit failure indicator nor otherwise — because the
promise executor never calls `resolve`.  So a caller cannot observe a
failure indicator; the call just hangs. -/
theorem compose_failure_counterexample :
    (createOverlayImage c5S true true false true).2 = ComposeRes.neverResolves := by decide

/-- Claim C5 (amended): with the preconditions satisfied, an unobtainable
drawing context makes the call resolve with no handle (`undefined` — the
same value as the precondition early-returns, not a distinguishable
failure indicator); a decode failure or a null blob from encoding makes
the promise never resolve; the successful path resolves with the handle.
No path throws (the model is a total function). -/
theorem compose_failure_modes (s : Session) (r c d b : Bool)
    (hfile : s.selectedFile.isSome = true) (hreg : s.textRegions.isEmpty = false)
    (hr : r = true) :
    (c = false → (createOverlayImage s r c d b).2 = ComposeRes.resolvedUndefined) ∧
    (c = true → d = false → (createOverlayImage s r c d b).2 = ComposeRes.neverResolves) ∧
    (c = true → d = true → b = false →
      (createOverlayImage s r c d b).2 = ComposeRes.neverResolves) ∧
    (c = true → d = true → b = true →
      (createOverlayImage s r c d b).2 = ComposeRes.resolvedUrl ∧
      (createOverlayImage s r c d b).1.overlayImageUrl = some s.nextHandle) := by
  have hnone : s.selectedFile.isNone = false := by
    cases hv : s.selectedFile
    · rw [hv] at hfile; cases hfile
    · rfl
  subst hr
  refine ⟨?_, ?_, ?_, ?_⟩
  · intro hc
    subst hc
    simp [createOverlayImage, hnone, hreg]
  · intro hc hd
    subst hc; subst hd
    simp [createOverlayImage, hnone, hreg]
  · intro hc hd hb
    subst hc; subst hd; subst hb
    simp [createOverlayImage, hnone, hreg]
  · intro hc hd hb
    subst hc; subst hd; subst hb
    simp [createOverlayImage, hnone, hreg]

theorem compose_failure_modes_witness :
    (createOverlayImage c5S true false true true).2 = ComposeRes.resolvedUndefined :=
  (compose_failure_modes c5S true false true true rfl rfl rfl).1 rfl

/-! ### Label font size (C8) -/

def clamp (x lo hi : ℚ) : ℚ := min hi (max lo x)

/-- The label font size of the compositor (App.tsx line 210):
`Math.max(12, Math.min(16, (y2 - y1) / 3))`, over exact rationals (for the
integer coordinates and clamp bounds involved, double evaluation agrees). -/
def overlayFontSize (y1 y2 : Nat) : ℚ := max 12 (min 16 (((y2 : ℚ) - (y1 : ℚ)) / 3))

/-- Claim C8: for every region the label font size equals
`clamp((y2-y1)/3, 12, 16)`; a box of height 30 gets size 12, height 48
gets 16, and height 36 gets 12. -/
theorem label_font_clamp :
    (∀ y1 y2 : Nat, overlayFontSize y1 y2 = clamp (((y2 : ℚ) - (y1 : ℚ)) / 3) 12 16) ∧
    overlayFontSize 10 40 = 12 ∧ overlayFontSize 0 48 = 16 ∧ overlayFontSize 4 40 = 12 := by
  refine ⟨?_, ?_, ?_, ?_⟩
  · intro y1 y2
    unfold overlayFontSize clamp
    rw [max_min_distrib_left]
    norm_num
  · norm_num [overlayFontSize]
  · norm_num [overlayFontSize]
  · norm_num [overlayFontSize]
